import Mathlib

/-!
Verification of the resource layer of a BigCommerce API client
(`bigcommerce/api/resources/resource.py`).

The file shallowly embeds the pieces of the source the claims are about:

* `get_all` — the paginated enumeration generator of `ResourceAccessor`
  (modelled as a fuelled function producing the full yielded sequence plus
  a terminal status);
* `createTargetUrl` / `createOp` — the URL computation of
  `ResourceAccessor.create` with its `parent_id` substitution;
* `ResourceObject` — the committed/pending field containers together with
  `__getattr__`, `__setattr__` and `update`.
-/

set_option autoImplicit false

namespace BigC

/-! ## Pagination: `ResourceAccessor.get_all`

The generator talks to the connection through `__get_page(page, limit, query)`,
i.e. one fetch per page, parameterised by the 1-based page number and the
requested page size.  A fetch can return a list of records, raise
`EmptyResponseWarning`, or raise any other exception. -/

/-- Outcome of one `__get_page` call: a decoded record list, the
distinguished `EmptyResponseWarning`, or any other transport exception. -/
inductive FetchResult (ε : Type) (α : Type) where
  | ok (recs : List α)
  | empty
  | err (e : ε)
deriving DecidableEq

/-- Python 2 `sys.maxint` on a 64-bit platform, the sentinel used by
`get_all` for `limit=0` ("all items"). -/
def sysMaxint : Nat := 2 ^ 63 - 1

/-- Result of the inner `for res in self.__get_page(...)` loop of `get_all`:
the records yielded from this page, plus the values of the mutable loop
variables `offset`, `requested_items` and `page_index` after the loop. -/
structure PageOut (α : Type) where
  yielded : List α
  offset : Nat
  requested : Nat
  pageIndex : Nat
deriving DecidableEq

/-- The inner record loop of `get_all`, translated statement by statement:

    for res in page:
        if offset <= page_index:
            offset = 0
            if not requested_items: break
            else:
                requested_items -= 1
                page_index += 1
                yield res
        else:
            page_index += 1
-/
def processPage {α : Type} (offset requested pageIndex : Nat) :
    List α → PageOut α
  | [] => ⟨[], offset, requested, pageIndex⟩
  | r :: rest =>
    if offset ≤ pageIndex then
      if requested = 0 then ⟨[], 0, 0, pageIndex⟩
      else
        let out := processPage 0 (requested - 1) (pageIndex + 1) rest
        ⟨r :: out.yielded, out.offset, out.requested, out.pageIndex⟩
    else
      processPage offset requested (pageIndex + 1) rest

/-- The `while requested_items:` loop of `get_all`.  `fetch page size` is
`self.__get_page(page, size)`; `m` is the effective page size
(`max_per_page` after clamping).  The result is `some (yielded, st)` where
`yielded` is the whole sequence produced by the generator and `st` is
`none` on normal termination (including termination by
`EmptyResponseWarning`, which the source catches) and `some e` when any
other transport exception `e` escapes.  `none` means the fuel ran out
before the loop finished. -/
def getAllAux {ε α : Type} (fetch : Nat → Nat → FetchResult ε α) (m : Nat) :
    Nat → Nat → Nat → Nat → Option (List α × Option ε)
  | 0, requested, _, _ =>
    if requested = 0 then some ([], none) else none
  | fuel + 1, requested, offset, page =>
    if requested = 0 then some ([], none)
    else
      match fetch (page + 1) m with
      | .empty => some ([], none)
      | .err e => some ([], some e)
      | .ok recs =>
        let out := processPage offset requested 0 recs
        let requested' := if out.pageIndex < m then 0 else out.requested
        match getAllAux fetch m fuel requested' out.offset (page + 1) with
        | none => none
        | some (ys, st) => some (out.yielded ++ ys, st)

/-- The effective page size computed by `get_all`:
`max_per_page = min(max_per_page, 250); max_per_page = min(requested_items, max_per_page)`. -/
def effPageSize (limit maxPerPage : Nat) : Nat :=
  min (if limit = 0 then sysMaxint else limit) (min maxPerPage 250)

/-- Embedding of `ResourceAccessor.get_all(start, limit, query, max_per_page)`.  The
prologue of the source:

    start -= 1
    requested_items = limit if limit else sys.maxint
    max_per_page = min(max_per_page, 250)
    max_per_page = min(requested_items, max_per_page)
    current_page = int(start / max_per_page)
    offset = start % max_per_page
-/
def get_all {ε α : Type} (fetch : Nat → Nat → FetchResult ε α)
    (start limit maxPerPage fuel : Nat) : Option (List α × Option ε) :=
  let s := start - 1
  let requested := if limit = 0 then sysMaxint else limit
  let m := effPageSize limit maxPerPage
  getAllAux fetch m fuel requested (s % m) (s / m)

/-- The page a consistent server returns for a 1-based `page` number and a
page size: the records at 0-based indices `[(page-1)*size, page*size)`. -/
def pageOf {α : Type} (items : List α) (page size : Nat) : List α :=
  (items.drop ((page - 1) * size)).take size

/-- A server holding `items` that pages consistently with whatever page
size the client requests, returning plain (possibly empty) record lists. -/
def honestFetch (ε : Type) {α : Type} (items : List α) :
    Nat → Nat → FetchResult ε α :=
  fun page size => .ok (pageOf items page size)

/-! ## `ResourceAccessor.create`

    def create(self, data, parent_id=None):
        if parent_id:
            _, parent, sub = self._url.split('/')
            url = "/{}/{}/{}".format(parent, parent_id, sub)
        else: url = self._url
        new = self._connection.create(url, data)
        return self._klass(self._connection, url, new, self._parent)
-/

/-- Python's `str.split('/')`: cut at every `'/'`, keeping empty pieces
(`"".split('/') == ['']`, `"/a/b".split('/') == ['', 'a', 'b']`). -/
def splitSlash : List Char → List (List Char)
  | [] => [[]]
  | c :: rest =>
    if c = '/' then [] :: splitSlash rest
    else
      match splitSlash rest with
      | [] => [[c]]
      | s :: ss => (c :: s) :: ss

/-- Outcome of computing the URL that `create` will POST to. -/
inductive CreateUrl where
  | posted (url : String)
  | malformedUrl
deriving DecidableEq

/-- The URL computation of `ResourceAccessor.create(data, parent_id)`.
`parentId = some pid` models a truthy `parent_id` (rendered as the string
`pid` by `format`).  The tuple unpacking `_, parent, sub = ...split('/')`
succeeds exactly when the split yields three pieces; any other shape makes
Python raise before any network call — the condition the spec names
`MalformedUrlError`. -/
def createTargetUrl (baseUrl : String) (parentId : Option String) : CreateUrl :=
  match parentId with
  | none => .posted baseUrl
  | some pid =>
    match splitSlash baseUrl.toList with
    | [_, parent, sub] =>
      .posted (String.mk ('/' :: parent ++ '/' :: pid.toList ++ '/' :: sub))
    | _ => .malformedUrl

/-- Embedding of `create` with the connection's write abstracted as `net`: the network
call happens only in the `posted` branch, after the URL computation has
succeeded. -/
def createOp {δ : Type} (net : String → δ) (baseUrl : String)
    (parentId : Option String) : Except Unit δ :=
  match createTargetUrl baseUrl parentId with
  | .posted url => .ok (net url)
  | .malformedUrl => .error ()

/-! ## `ResourceObject`

The realized record type holds `_fields` (committed, fetched state),
`_updates` (pending, unsent mutations) and — since Python resolves
ordinary instance attributes before `__getattr__`/after the `else` branch
of `__setattr__` — a third mapping for the attributes set through
`object.__setattr__`. -/

/-- A decoded JSON value as the source manipulates it: `none` for JSON
null, plain scalars, a raw `dict`, a `dict` wrapped in the dotted-access
`Mapping` view, and a realized sub-resource list. -/
inductive PyVal where
  | none
  | int (n : Int)
  | str (s : String)
  | dict (d : List (String × PyVal))
  | mapping (d : List (String × PyVal))
  | list (xs : List PyVal)

/-- First-match lookup in a Python-dict-like association list. -/
def lookupKey {V : Type} : List (String × V) → String → Option V
  | [], _ => Option.none
  | (k, v) :: rest, key => if k = key then some v else lookupKey rest key

/-- Python's `d[key] = v` / `d.update({key: v})`: overwrite the existing
entry or append a fresh one. -/
def insertKey {V : Type} : List (String × V) → String → V → List (String × V)
  | [], key, v => [(key, v)]
  | (k, w) :: rest, key, v =>
    if k = key then (key, v) :: rest else (k, w) :: insertKey rest key v

/-- A realized `ResourceObject`: `fields` is `_fields`, `updates` is
`_updates`, `attrs` holds the ordinary instance attributes (those set via
`object.__setattr__`, e.g. `_url`, `_parent`, `_connection`), and `url` is
`self._url` (the object's self URL). -/
structure RObj where
  fields : List (String × PyVal)
  updates : List (String × PyVal)
  attrs : List (String × PyVal)
  url : String

/-- Embedding of `ResourceObject.__getattr__`, statement by statement.  `subRes` maps a
field name registered in the class-level `sub_resources` table to its
`single` flag; `inflate` abstracts the network-backed realization a
`SubResourceAccessor` performs (`list(_con.get_all())` when not `single`,
`_con.get("")` when `single`) — the connection is an external
collaborator.  `error ()` is the `AttributeError` the spec names
`UnknownFieldError`.  The returned object carries the cache mutation
`self._fields[attrname] = val` performed for dict-valued fields. -/
def getattrFn (subRes : List (String × Bool))
    (inflate : Bool → List (String × PyVal) → PyVal)
    (o : RObj) (name : String) : Except Unit (PyVal × RObj) :=
  match lookupKey o.updates name with
  | some v => .ok (v, o)
  | Option.none =>
    match lookupKey o.fields name with
    | Option.none => .error ()
    | some data =>
      match data with
      | .none => .ok (.none, o)
      | .dict d =>
        match lookupKey subRes name with
        | some single =>
          let v := inflate single d
          .ok (v, { o with fields := insertKey o.fields name v })
        | Option.none =>
          let v := PyVal.mapping d
          .ok (v, { o with fields := insertKey o.fields name v })
      | v => .ok (v, o)

/-- Result of `ResourceObject.__setattr__`: a normal return with the
mutated object, the `AttributeError` raised for read-only fields (the
spec's `ReadOnlyFieldError` — the object is carried unchanged), or the
special first branch `name == "_fields"` that overwrites the `_fields`
slot itself through `object.__setattr__`. -/
inductive SetResult where
  | ok (o : RObj)
  | readOnlyError (o : RObj)
  | fieldsAssigned (v : PyVal)

/-- Embedding of `ResourceObject.__setattr__`, statement by statement.  `readOnly` and
`writeable` are the class-level `read_only` and `writeable` lists.  Note
the missing `else`: a recognized, non-read-only field outside a non-empty
`writeable` list falls through with no effect at all. -/
def setattrFn (readOnly writeable : List String) (o : RObj) (name : String)
    (v : PyVal) : SetResult :=
  if name = "_fields" then .fieldsAssigned v
  else if (lookupKey o.fields name).isSome then
    if name ∈ readOnly then .readOnlyError o
    else if writeable = [] ∨ name ∈ writeable then
      .ok { o with updates := insertKey o.updates name v }
    else .ok o
  else .ok { o with attrs := insertKey o.attrs name v }

/-- Result of `ResourceObject.update()`: normal completion with the new
object state and the payload sent over the wire (`none` when no network
call was made), or a transport exception propagating with the object
state at the moment it was raised. -/
inductive UpdateResult (ε : Type) where
  | done (o : RObj) (sent : Option (String × List (String × PyVal)))
  | raised (e : ε) (o : RObj)

/-- Embedding of `ResourceObject.update()`:

    if self._updates:
        results = self._connection.update(self.get_url(), self._updates)
        self._updates.clear()
        self._fields = results

`conn` is `self._connection.update`.  The `clear()` and the `_fields`
assignment run only after `conn` returns normally. -/
def updateOp {ε : Type}
    (conn : String → List (String × PyVal) → Except ε (List (String × PyVal)))
    (o : RObj) : UpdateResult ε :=
  match o.updates with
  | [] => .done o Option.none
  | _ :: _ =>
    match conn o.url o.updates with
    | .ok results =>
      .done { o with fields := results, updates := [] } (some (o.url, o.updates))
    | .error e => .raised e o

/-! ## Theorems -/

/-! ### Characterisation of the inner record loop -/

theorem getAllAux_requested_zero {ε α : Type} (fetch : Nat → Nat → FetchResult ε α)
    (m fuel offset page : Nat) :
    getAllAux fetch m fuel 0 offset page = some ([], none) := by
  cases fuel <;> simp [getAllAux]

theorem processPage_zero {α : Type} (q pi : Nat) (recs : List α) :
    processPage 0 q pi recs
      = ⟨recs.take q, 0, q - min recs.length q, pi + min recs.length q⟩ := by
  induction recs generalizing q pi with
  | nil => simp [processPage]
  | cons r rest ih =>
    cases q with
    | zero => simp [processPage]
    | succ q =>
      simp only [processPage, Nat.zero_le, if_true, Nat.succ_ne_zero, if_false, ih,
        List.length_cons, List.take_succ_cons, Nat.succ_min_succ, Nat.succ_sub_succ,
        Nat.sub_zero, PageOut.mk.injEq]
      refine ⟨trivial, trivial, trivial, ?_⟩
      rw [Nat.succ_eq_add_one]; ring

theorem processPage_eq {α : Type} (q : Nat) (recs : List α) :
    ∀ d pi : Nat,
    processPage (pi + d) q pi recs =
      if recs.length ≤ d then ⟨[], pi + d, q, pi + recs.length⟩
      else ⟨(recs.drop d).take q, 0,
            q - min (recs.length - d) q,
            pi + d + min (recs.length - d) q⟩ := by
  induction recs with
  | nil => intro d pi; simp [processPage]
  | cons r rest ih =>
    intro d pi
    cases d with
    | zero =>
      -- offset = page_index: the offset test succeeds on the first record
      rw [Nat.add_zero]
      have hns : ¬ ((r :: rest).length ≤ 0) := by simp
      rw [processPage, if_pos (Nat.le_refl pi), if_neg hns]
      cases q with
      | zero => simp
      | succ q =>
        rw [if_neg (Nat.succ_ne_zero q)]
        simp only [processPage_zero, Nat.add_sub_cancel, List.drop_zero,
          List.length_cons, List.take_succ_cons, Nat.sub_zero, Nat.succ_min_succ,
          Nat.succ_sub_succ, PageOut.mk.injEq]
        refine ⟨trivial, trivial, trivial, ?_⟩
        rw [Nat.succ_eq_add_one]; ring
    | succ d =>
      -- offset > page_index: skip this record
      have hne : ¬ pi + (d + 1) ≤ pi := by omega
      rw [processPage, if_neg hne]
      have hsh : pi + (d + 1) = (pi + 1) + d := by omega
      rw [hsh, ih d (pi + 1)]
      simp only [List.length_cons, List.drop_succ_cons, Nat.succ_sub_succ,
        Nat.add_le_add_iff_right, PageOut.mk.injEq]
      by_cases hc : rest.length ≤ d
      · rw [if_pos hc, if_pos hc]
        simp only [PageOut.mk.injEq]
        refine ⟨trivial, trivial, trivial, ?_⟩
        ring
      · rw [if_neg hc, if_neg hc]

theorem processPage_start {α : Type} (o q : Nat) (recs : List α) :
    processPage o q 0 recs =
      if recs.length ≤ o then ⟨[], o, q, recs.length⟩
      else ⟨(recs.drop o).take q, 0,
            q - min (recs.length - o) q,
            o + min (recs.length - o) q⟩ := by
  have h := processPage_eq q recs o 0
  simpa using h

theorem processPage_pageIndex_le {α : Type} (recs : List α) :
    ∀ o q pi : Nat, (processPage o q pi recs).pageIndex ≤ pi + recs.length := by
  induction recs with
  | nil => intro o q pi; simp [processPage]
  | cons r rest ih =>
    intro o q pi
    rw [processPage]
    split
    · split
      · simp only [List.length_cons]; omega
      · have := ih 0 (q - 1) (pi + 1)
        simp only [List.length_cons]; omega
    · have := ih o q (pi + 1)
      simp only [List.length_cons]; omega

/-- One iteration of the `while` loop of `get_all`, when the fetch returns
a record list: process the page, zero out `requested_items` on a short
page, and continue. -/
theorem getAllAux_ok_step {ε α : Type} (fetch : Nat → Nat → FetchResult ε α)
    (m f requested offset page : Nat) (recs ys : List α) (o' q' pi' : Nat)
    (hq : requested ≠ 0) (hfetch : fetch (page + 1) m = .ok recs)
    (hout : processPage offset requested 0 recs = ⟨ys, o', q', pi'⟩) :
    getAllAux fetch m (f + 1) requested offset page
      = match getAllAux fetch m f (if pi' < m then 0 else q') o' (page + 1) with
        | none => none
        | some (zs, st) => some (ys ++ zs, st) := by
  rw [getAllAux, if_neg hq, hfetch]
  simp only [hout]

/-- Variant of `getAllAux_ok_step` with the result of the continuation
known. -/
theorem getAllAux_ok_step_some {ε α : Type} (fetch : Nat → Nat → FetchResult ε α)
    (m f requested offset page : Nat) (recs ys zs : List α) (o' q' pi' : Nat)
    (st : Option ε)
    (hq : requested ≠ 0) (hfetch : fetch (page + 1) m = .ok recs)
    (hout : processPage offset requested 0 recs = ⟨ys, o', q', pi'⟩)
    (hrec : getAllAux fetch m f (if pi' < m then 0 else q') o' (page + 1)
              = some (zs, st)) :
    getAllAux fetch m (f + 1) requested offset page = some (ys ++ zs, st) := by
  rw [getAllAux_ok_step fetch m f requested offset page recs ys o' q' pi'
        hq hfetch hout, hrec]

/-! ### `get_all` against a consistent server -/

/-- The loop of `get_all`, run against a server that honours the requested
page size, yields exactly the suffix of the data starting at logical index
`page * m + offset`, truncated to `requested` items, and terminates
normally — provided the fuel covers the number of pages left. -/
theorem getAllAux_honest {ε α : Type} (items : List α) (m : Nat) (hm : 1 ≤ m) :
    ∀ fuel page requested offset : Nat, offset < m → 1 ≤ fuel →
      items.length < (page + fuel) * m →
      getAllAux (honestFetch ε items) m fuel requested offset page
        = some ((items.drop (page * m + offset)).take requested, none) := by
  intro fuel
  induction fuel with
  | zero => intro page requested offset _ hf _; exact absurd hf (by omega)
  | succ f ih =>
    intro page requested offset ho _ hN
    by_cases hq : requested = 0
    · subst hq
      simp [getAllAux]
    · set recs : List α := (items.drop (page * m)).take m with hrecs
      have hpage : honestFetch ε items (page + 1) m = FetchResult.ok recs := by
        simp [honestFetch, pageOf, hrecs]
      have hlen : recs.length = min m (items.length - page * m) := by
        rw [hrecs]; simp [List.length_take, List.length_drop]
      have hcases : recs.length = m ∨ recs.length = items.length - page * m := by
        rw [hlen]
        rcases Nat.le_total m (items.length - page * m) with h | h
        · exact Or.inl (Nat.min_eq_left h)
        · exact Or.inr (Nat.min_eq_right h)
      by_cases hskip : recs.length ≤ offset
      · -- the whole (necessarily short) page is skipped: enumeration ends
        have hout : processPage offset requested 0 recs
            = ⟨[], offset, requested, recs.length⟩ := by
          rw [processPage_start, if_pos hskip]
        have hpi : recs.length < m := lt_of_le_of_lt hskip ho
        have hrec : getAllAux (honestFetch ε items) m f
            (if recs.length < m then 0 else requested) offset (page + 1)
            = some ([], none) := by
          rw [if_pos hpi]
          exact getAllAux_requested_zero _ _ _ _ _
        rw [getAllAux_ok_step_some (honestFetch ε items) m f requested offset page
              recs [] [] offset requested recs.length none hq hpage hout hrec]
        have hend : items.length ≤ page * m + offset := by
          rcases hcases with h | h <;> omega
        rw [List.drop_eq_nil_of_le hend]
        simp
      · -- at least one record survives the offset skip
        push_neg at hskip
        set k := min (recs.length - offset) requested with hk
        have hout : processPage offset requested 0 recs
            = ⟨(recs.drop offset).take requested, 0, requested - k, offset + k⟩ := by
          rw [processPage_start, if_neg (by omega : ¬ recs.length ≤ offset)]
        have hyield : (recs.drop offset).take requested
            = (items.drop (page * m + offset)).take (min requested (m - offset)) := by
          rw [hrecs, List.drop_take, List.take_take, List.drop_drop]
        have hkL : k ≤ recs.length - offset := hk ▸ Nat.min_le_left _ _
        have hkreq : k ≤ requested := hk ▸ Nat.min_le_right _ _
        have hLle : recs.length ≤ m := hlen ▸ Nat.min_le_left _ _
        by_cases hshort : offset + k < m
        · -- a short page: `requested_items` is zeroed afterwards
          have hrec : getAllAux (honestFetch ε items) m f
              (if offset + k < m then 0 else requested - k) 0 (page + 1)
              = some ([], none) := by
            rw [if_pos hshort]
            exact getAllAux_requested_zero _ _ _ _ _
          rw [getAllAux_ok_step_some (honestFetch ε items) m f requested offset page
                recs _ [] 0 (requested - k) (offset + k) none hq hpage hout hrec,
              List.append_nil, hyield]
          -- the two takes agree
          rcases Nat.le_total requested (m - offset) with hcase | hcase
          · rw [Nat.min_eq_left hcase]
          · -- requested ≥ m - offset: the page itself ran out before `requested`
            have hkval : k = recs.length - offset := by
              rw [hk]
              rcases Nat.le_total (recs.length - offset) requested with h | h
              · exact Nat.min_eq_left h
              · exfalso
                have : k = requested := hk ▸ Nat.min_eq_right h
                omega
            have hLval : recs.length = items.length - page * m := by
              rcases hcases with h | h
              · exfalso; omega
              · exact h
            have hTlen : (items.drop (page * m + offset)).length
                = recs.length - offset := by
              rw [List.length_drop]; omega
            have h1 : (items.drop (page * m + offset)).length
                ≤ min requested (m - offset) := by
              rw [hTlen]
              exact Nat.le_min.mpr ⟨by omega, by omega⟩
            have h2 : (items.drop (page * m + offset)).length ≤ requested := by
              rw [hTlen]; omega
            rw [List.take_of_length_le h1, List.take_of_length_le h2]
        · -- a full page: recurse on the rest of the data
          have hLm : recs.length = m := by omega
          have hkval : k = m - offset := by omega
          have hreq : m - offset ≤ requested := by omega
          have hNge : page * m + m ≤ items.length := by
            rcases hcases with h | h <;> omega
          have hf1 : 1 ≤ f := by
            rcases Nat.eq_zero_or_pos f with hf0 | hf0
            · exfalso
              rw [hf0, Nat.zero_add, Nat.succ_mul] at hN
              omega
            · exact hf0
          have hN' : items.length < (page + 1 + f) * m := by
            have hpf : page + 1 + f = page + (f + 1) := by omega
            rw [hpf]; exact hN
          have hrec : getAllAux (honestFetch ε items) m f
              (if offset + k < m then 0 else requested - k) 0 (page + 1)
              = some ((items.drop ((page + 1) * m + 0)).take (requested - k),
                      none) := by
            rw [if_neg hshort]
            exact ih (page + 1) (requested - k) 0 hm hf1 hN'
          rw [getAllAux_ok_step_some (honestFetch ε items) m f requested offset page
                recs _ _ 0 (requested - k) (offset + k) none hq hpage hout hrec,
              hyield, Nat.min_eq_right hreq]
          have hdropeq : (page + 1) * m + 0 = (page * m + offset) + (m - offset) := by
            rw [Nat.succ_mul]; omega
          have hre : requested = (m - offset) + (requested - (m - offset)) := by
            omega
          have hsplit : (items.drop (page * m + offset)).take requested
              = (items.drop (page * m + offset)).take (m - offset)
                ++ ((items.drop (page * m + offset)).drop (m - offset)).take
                    (requested - (m - offset)) := by
            conv_lhs => rw [hre]
            rw [List.take_add]
          rw [hsplit, List.drop_drop, ← hdropeq, hkval]

/-- C1: for every collection held by the server, every `start ≥ 1`, every
`limit ≥ 0`, and every `maxPerPage ≥ 1`, `get_all(start, limit, query={},
max_per_page=maxPerPage)` run against a server that pages its data
consistently with the requested page size yields exactly
`min(limit-or-all-when-0, number of items available from position start)`
items, namely the contiguous block of the server's data starting at
1-based position `start` — in server order, with no duplicates and no
gaps.  (The hypothesis `items.length < sysMaxint` reflects the
`sys.maxint` sentinel the source uses for `limit=0`.) -/
theorem claim_C1 {ε α : Type} (items : List α) (start limit maxPerPage : Nat)
    (_hstart : 1 ≤ start) (hmpp : 1 ≤ maxPerPage)
    (hN : items.length < sysMaxint) :
    get_all (honestFetch ε items) start limit maxPerPage (items.length + 2)
      = some ((items.drop (start - 1)).take
                (if limit = 0 then items.length else limit), none)
    ∧ ((items.drop (start - 1)).take
        (if limit = 0 then items.length else limit)).length
      = min (if limit = 0 then items.length else limit)
            (items.length - (start - 1)) := by
  refine ⟨?_, by simp [List.length_take, List.length_drop]⟩
  have hR : 1 ≤ (if limit = 0 then sysMaxint else limit) := by
    split
    · norm_num [sysMaxint]
    · omega
  have hm : 1 ≤ effPageSize limit maxPerPage := by
    rw [effPageSize]
    exact Nat.le_min.mpr ⟨hR, Nat.le_min.mpr ⟨hmpp, by norm_num⟩⟩
  have hfuel : items.length
      < ((start - 1) / effPageSize limit maxPerPage + (items.length + 2))
        * effPageSize limit maxPerPage := by
    calc items.length
        < (start - 1) / effPageSize limit maxPerPage + (items.length + 2) :=
          Nat.lt_of_lt_of_le (by omega) (Nat.le_add_left _ _)
      _ ≤ ((start - 1) / effPageSize limit maxPerPage + (items.length + 2))
            * effPageSize limit maxPerPage := Nat.le_mul_of_pos_right _ hm
  have hmain := getAllAux_honest (ε := ε) items (effPageSize limit maxPerPage) hm
      (items.length + 2) ((start - 1) / effPageSize limit maxPerPage)
      (if limit = 0 then sysMaxint else limit)
      ((start - 1) % effPageSize limit maxPerPage)
      (Nat.mod_lt _ hm) (by omega) hfuel
  rw [Nat.div_add_mod' (start - 1) (effPageSize limit maxPerPage)] at hmain
  have htake : (items.drop (start - 1)).take (if limit = 0 then sysMaxint else limit)
      = (items.drop (start - 1)).take (if limit = 0 then items.length else limit) := by
    by_cases hlim : limit = 0
    · rw [if_pos hlim, if_pos hlim,
        List.take_of_length_le (by rw [List.length_drop]; omega),
        List.take_of_length_le (by rw [List.length_drop]; omega)]
    · rw [if_neg hlim, if_neg hlim]
  calc get_all (honestFetch ε items) start limit maxPerPage (items.length + 2)
      = some ((items.drop (start - 1)).take
          (if limit = 0 then sysMaxint else limit), none) := hmain
    _ = some ((items.drop (start - 1)).take
          (if limit = 0 then items.length else limit), none) := by rw [htake]

/-- C2 counterexample: over the 10-item collection whose k-th item (1-based)
is the number k, `get_all(start=5, limit=3, max_per_page=4)` yields the
items at positions 5, 6 and 7 — not 6, 7 and 8 as claimed.  (The source
converts `start` to a 0-based offset with `start -= 1`, so `start=5` begins
at the 5th item.) -/
theorem claim_C2_counterexample :
    get_all (honestFetch Unit [1,2,3,4,5,6,7,8,9,10]) 5 3 4 12
      = some ([5, 6, 7], none)
    ∧ get_all (honestFetch Unit [1,2,3,4,5,6,7,8,9,10]) 5 3 4 12
      ≠ some ([6, 7, 8], none) := by
  exact ⟨by decide, by decide⟩

/-- C2 (amended): over a 10-item collection, `get_all(start=5, limit=3,
max_per_page=4)` yields exactly the items at 1-based server positions 5, 6
and 7, in that order, regardless of how the computed page boundaries fall
(here the effective page size is `min(3, 4) = 3`, so the fetched pages are
not aligned with `max_per_page`). -/
theorem claim_C2_amended :
    get_all (honestFetch Unit [1,2,3,4,5,6,7,8,9,10]) 5 3 4 12
      = some ([5, 6, 7], none) := by decide

/-- C3: in any loop state of `get_all` with a positive remaining request
count, if the fetched page holds fewer records than the effective page
size `m` (a short page), the enumeration stops after processing that page:
the result is fully determined by that single fetch (the equation holds
for every `fetch` that returns `recs` for this one page, whatever it does
elsewhere, and needs no further fuel), no further page is requested, no
further item is yielded, and no error is raised — even though `requested`
may still be positive. -/
theorem claim_C3 {ε α : Type} (fetch : Nat → Nat → FetchResult ε α)
    (m fuel requested offset page : Nat) (recs : List α)
    (hreq : requested ≠ 0)
    (hfetch : fetch (page + 1) m = .ok recs)
    (hshort : recs.length < m) :
    getAllAux fetch m (fuel + 1) requested offset page
      = some ((processPage offset requested 0 recs).yielded, none) := by
  have hle : (processPage offset requested 0 recs).pageIndex ≤ recs.length := by
    simpa using processPage_pageIndex_le recs offset requested 0
  have h := getAllAux_ok_step_some fetch m fuel requested offset page recs
      (processPage offset requested 0 recs).yielded []
      (processPage offset requested 0 recs).offset
      (processPage offset requested 0 recs).requested
      (processPage offset requested 0 recs).pageIndex none hreq hfetch rfl
      (by rw [if_pos (lt_of_le_of_lt hle hshort)]
          exact getAllAux_requested_zero _ _ _ _ _)
  simpa using h

/-- Witness for C3: a server whose first page has 2 records while the
effective page size is 3 and 10 more items were requested: only those 2
records are yielded, and the enumeration ends normally with a single
fetch. -/
theorem claim_C3_witness :
    (10 : Nat) ≠ 0
    ∧ (fun p (_ : Nat) => if p = 1 then (FetchResult.ok [1, 2] : FetchResult Unit Nat)
        else .ok [9, 9, 9]) (0 + 1) 3 = .ok [1, 2]
    ∧ ([1, 2] : List Nat).length < 3
    ∧ getAllAux (fun p (_ : Nat) => if p = 1 then (FetchResult.ok [1, 2] : FetchResult Unit Nat)
        else .ok [9, 9, 9]) 3 (7 + 1) 10 0 0
      = some ((processPage 0 10 0 [1, 2]).yielded, none) :=
  ⟨by decide, by decide, by decide,
    claim_C3 (fun p _ => if p = 1 then .ok [1, 2] else .ok [9, 9, 9])
      3 7 10 0 0 [1, 2] (by decide) (by decide) (by decide)⟩

/-- C4: in any loop state of `get_all` with a positive remaining request
count, (1) if the fetch raises the distinguished `EmptyResponseWarning`,
enumeration terminates silently at that point — no item is yielded from
that point on and no error escapes; (2) any other transport exception
propagates to the caller unmodified; (3) when `EmptyResponseWarning` is
raised on the very first page fetch, `get_all` yields zero items and no
error. -/
theorem claim_C4 {ε α : Type} (fetch : Nat → Nat → FetchResult ε α)
    (m fuel requested offset page start limit maxPerPage : Nat) (e : ε)
    (hreq : requested ≠ 0) :
    (fetch (page + 1) m = .empty →
      getAllAux fetch m (fuel + 1) requested offset page = some ([], none))
    ∧ (fetch (page + 1) m = .err e →
      getAllAux fetch m (fuel + 1) requested offset page = some ([], some e))
    ∧ (fetch ((start - 1) / effPageSize limit maxPerPage + 1)
          (effPageSize limit maxPerPage) = .empty →
      get_all fetch start limit maxPerPage (fuel + 1) = some ([], none)) := by
  refine ⟨?_, ?_, ?_⟩
  · intro h
    rw [getAllAux, if_neg hreq, h]
  · intro h
    rw [getAllAux, if_neg hreq, h]
  · intro h
    show getAllAux fetch (effPageSize limit maxPerPage) (fuel + 1)
        (if limit = 0 then sysMaxint else limit)
        ((start - 1) % effPageSize limit maxPerPage)
        ((start - 1) / effPageSize limit maxPerPage) = some ([], none)
    have hR : (if limit = 0 then sysMaxint else limit) ≠ 0 := by
      split
      · norm_num [sysMaxint]
      · omega
    rw [getAllAux, if_neg hR, h]

/-- Witness for C4: a transport that raises `EmptyResponseWarning` on
every fetch yields zero items and no error, an erroring transport
surfaces its error, and a first-page `EmptyResponseWarning` makes
`get_all` yield nothing. -/
theorem claim_C4_witness :
    (7 : Nat) ≠ 0
    ∧ (((fun _ _ => FetchResult.empty : Nat → Nat → FetchResult Nat Nat) (0 + 1) 3
          = .empty →
        getAllAux (fun _ _ => FetchResult.empty : Nat → Nat → FetchResult Nat Nat)
          3 (5 + 1) 7 0 0 = some ([], none))
      ∧ ((fun _ _ => FetchResult.empty : Nat → Nat → FetchResult Nat Nat) (0 + 1) 3
          = .err 9 →
        getAllAux (fun _ _ => FetchResult.empty : Nat → Nat → FetchResult Nat Nat)
          3 (5 + 1) 7 0 0 = some ([], some 9))
      ∧ ((fun _ _ => FetchResult.empty : Nat → Nat → FetchResult Nat Nat)
            ((4 - 1) / effPageSize 0 50 + 1) (effPageSize 0 50) = .empty →
        get_all (fun _ _ => FetchResult.empty : Nat → Nat → FetchResult Nat Nat)
          4 0 50 (5 + 1) = some ([], none))) :=
  ⟨by decide,
    claim_C4 (fun _ _ => FetchResult.empty) 3 5 7 0 0 4 0 50 9 (by decide)⟩

/-- Witness for C1: a 3-item collection enumerated with `start=2`,
`limit=0`, `max_per_page=2` yields the last two items. -/
theorem claim_C1_witness :
    (1 : Nat) ≤ 2 ∧ (1 : Nat) ≤ 2
    ∧ ([10, 20, 30] : List Nat).length < sysMaxint
    ∧ (get_all (honestFetch Unit [10, 20, 30]) 2 0 2
          (([10, 20, 30] : List Nat).length + 2)
        = some ((([10, 20, 30] : List Nat).drop (2 - 1)).take
            (if (0 : Nat) = 0 then ([10, 20, 30] : List Nat).length else 0), none)
      ∧ ((([10, 20, 30] : List Nat).drop (2 - 1)).take
            (if (0 : Nat) = 0 then ([10, 20, 30] : List Nat).length else 0)).length
        = min (if (0 : Nat) = 0 then ([10, 20, 30] : List Nat).length else 0)
            (([10, 20, 30] : List Nat).length - (2 - 1))) :=
  ⟨by decide, by decide, by decide,
    claim_C1 [10, 20, 30] 2 0 2 (by decide) (by decide) (by decide)⟩

/-- C5 counterexample: the base URL `"/orders/products/images"` has four
`'/'`-delimited segments — at least 3, so the claim's precondition holds —
yet `create` with a truthy `parentId` raises instead of posting: the
source's tuple unpacking demands exactly three pieces. -/
theorem claim_C5_counterexample :
    3 ≤ (splitSlash "/orders/products/images".toList).length
    ∧ createTargetUrl "/orders/products/images" (some "42") = .malformedUrl
    ∧ createOp id "/orders/products/images" (some "42") = .error () := by
  refine ⟨by decide, by decide, by rfl⟩

/-- C5 (amended): with a truthy `parentId`, `create` posts to the URL with
`parentId` substituted as the second path segment exactly when the base
URL splits on `'/'` into exactly three pieces (e.g. `"/orders/products"`);
with any other number of pieces it raises (`MalformedUrlError`) before
any network call — the result is `error` for every `net`, which is never
invoked; without `parentId` it posts to the base URL unchanged. -/
theorem claim_C5_amended {δ : Type} (net : String → δ) (baseUrl : String)
    (first parent sub : List Char) (pid : String) :
    (splitSlash baseUrl.toList = [first, parent, sub] →
      createOp net baseUrl (some pid)
        = .ok (net (String.mk ('/' :: parent ++ '/' :: pid.toList ++ '/' :: sub))))
    ∧ ((splitSlash baseUrl.toList).length ≠ 3 →
      createOp net baseUrl (some pid) = .error ())
    ∧ createOp net baseUrl none = .ok (net baseUrl) := by
  refine ⟨?_, ?_, rfl⟩
  · intro h
    have h1 : createTargetUrl baseUrl (some pid)
        = .posted (String.mk ('/' :: parent ++ '/' :: pid.toList ++ '/' :: sub)) := by
      simp only [createTargetUrl, h]
    simp [createOp, h1]
  · intro h
    have h1 : createTargetUrl baseUrl (some pid) = .malformedUrl := by
      simp only [createTargetUrl]
      rcases hs : splitSlash baseUrl.toList with _ | ⟨a, _ | ⟨b, _ | ⟨c, _ | ⟨d, t⟩⟩⟩⟩
      · rfl
      · rfl
      · rfl
      · exact absurd (by rw [hs]; rfl) h
      · rfl
    simp [createOp, h1]

/-- Witness for C5 (amended): `"/orders/products"` with `parentId="42"`
posts to `"/orders/42/products"`; the two-piece `"/products"` raises; no
`parentId` posts to the base URL unchanged. -/
theorem claim_C5_witness :
    splitSlash "/orders/products".toList
      = [[], "orders".toList, "products".toList]
    ∧ createOp id "/orders/products" (some "42") = .ok "/orders/42/products"
    ∧ (splitSlash "/products".toList).length ≠ 3
    ∧ createOp id "/products" (some "42") = .error ()
    ∧ createOp id "/orders/products" none = .ok "/orders/products" := by
  refine ⟨by decide, ?_, by decide, ?_, ?_⟩
  · have h := (claim_C5_amended id "/orders/products" [] "orders".toList
        "products".toList "42").1 (by decide)
    rw [h]
    have he : String.mk ('/' :: "orders".toList ++ '/' :: "42".toList
        ++ '/' :: "products".toList) = "/orders/42/products" := by decide
    rw [he]
    rfl
  · exact (claim_C5_amended id "/products" [] [] [] "42").2.1 (by decide)
  · exact (claim_C5_amended id "/orders/products" [] [] [] "42").2.2

/-- Reading a field that lives only in `committedFields` and whose stored
value is not a raw dict returns that value unchanged, with no state
change. -/
theorem getattr_committed_plain (subRes : List (String × Bool))
    (inflate : Bool → List (String × PyVal) → PyVal)
    (o : RObj) (name : String) (v : PyVal)
    (h1 : lookupKey o.updates name = Option.none)
    (h2 : lookupKey o.fields name = some v)
    (hnd : ∀ d, v ≠ .dict d) :
    getattrFn subRes inflate o name = .ok (v, o) := by
  simp only [getattrFn, h1, h2]
  cases v with
  | none => rfl
  | int n => rfl
  | str s => rfl
  | dict d => exact absurd rfl (hnd d)
  | mapping d => rfl
  | list xs => rfl

/-- C8: an attribute read resolves in the order (1) `pendingUpdates`, then
(2) `committedFields` — when the name is a key of both, the
`pendingUpdates` value is returned (first clause: it applies whatever
`committedFields` holds) — and a read of a name present in neither
mapping fails with `UnknownFieldError`; a name present only in
`committedFields` reads successfully, returning the committed value
unchanged whenever it is not a raw dict (raw dicts are realized/wrapped
first, per the source). -/
theorem claim_C8 (subRes : List (String × Bool))
    (inflate : Bool → List (String × PyVal) → PyVal)
    (o : RObj) (name : String) :
    (∀ v, lookupKey o.updates name = some v →
      getattrFn subRes inflate o name = .ok (v, o))
    ∧ (lookupKey o.updates name = Option.none →
       lookupKey o.fields name = Option.none →
      getattrFn subRes inflate o name = .error ())
    ∧ (∀ v, lookupKey o.updates name = Option.none →
       lookupKey o.fields name = some v →
      ∃ r o', getattrFn subRes inflate o name = .ok (r, o'))
    ∧ (∀ v, lookupKey o.updates name = Option.none →
       lookupKey o.fields name = some v → (∀ d, v ≠ .dict d) →
      getattrFn subRes inflate o name = .ok (v, o)) := by
  refine ⟨?_, ?_, ?_, fun v h1 h2 hnd =>
    getattr_committed_plain subRes inflate o name v h1 h2 hnd⟩
  · intro v h
    simp only [getattrFn, h]
  · intro h1 h2
    simp only [getattrFn, h1, h2]
  · intro v h1 h2
    simp only [getattrFn, h1, h2]
    cases v with
    | none => exact ⟨_, _, rfl⟩
    | int n => exact ⟨_, _, rfl⟩
    | str s => exact ⟨_, _, rfl⟩
    | dict d =>
      cases hs : lookupKey subRes name with
      | none => simp only [hs]; exact ⟨_, _, rfl⟩
      | some b => simp only [hs]; exact ⟨_, _, rfl⟩
    | mapping d => exact ⟨_, _, rfl⟩
    | list xs => exact ⟨_, _, rfl⟩

/-- Witness for C8: with pending `name := "X"` over committed
`name := "srv"`, a read of `name` returns `"X"`; a read of a name in
neither mapping raises; with no pending update, the committed value is
returned. -/
theorem claim_C8_witness :
    getattrFn [] (fun _ _ => PyVal.none)
      ⟨[("name", .str "srv")], [("name", .str "X")], [], "/products/1"⟩ "name"
      = .ok (.str "X", ⟨[("name", .str "srv")], [("name", .str "X")], [], "/products/1"⟩)
    ∧ getattrFn [] (fun _ _ => PyVal.none)
      ⟨[("name", .str "srv")], [("name", .str "X")], [], "/products/1"⟩ "missing"
      = .error ()
    ∧ getattrFn [] (fun _ _ => PyVal.none)
      ⟨[("name", .str "srv")], [], [], "/products/1"⟩ "name"
      = .ok (.str "srv", ⟨[("name", .str "srv")], [], [], "/products/1"⟩) :=
  ⟨(claim_C8 [] (fun _ _ => PyVal.none)
      ⟨[("name", .str "srv")], [("name", .str "X")], [], "/products/1"⟩ "name").1
      (.str "X") rfl,
   (claim_C8 [] (fun _ _ => PyVal.none)
      ⟨[("name", .str "srv")], [("name", .str "X")], [], "/products/1"⟩ "missing").2.1
      rfl rfl,
   (claim_C8 [] (fun _ _ => PyVal.none)
      ⟨[("name", .str "srv")], [], [], "/products/1"⟩ "name").2.2.2
      (.str "srv") rfl rfl (fun _ h => PyVal.noConfusion h)⟩

/-- C9: writing to a recognized field (a key of `committedFields`) that is
declared read-only raises `ReadOnlyFieldError` and leaves the object —
in particular `pendingUpdates` and `committedFields` — unchanged; writing
to a recognized, non-read-only field buffers the value into
`pendingUpdates` when `writableFields` is empty (unrestricted) or lists
the name; writing to an unrecognized name sets an ordinary instance
attribute and buffers nothing.  (`name ≠ "_fields"` excludes the
implementation-internal slot handled by the first branch of
`__setattr__`.) -/
theorem claim_C9 (readOnly writeable : List String) (o : RObj) (name : String)
    (v : PyVal) (hn : name ≠ "_fields") :
    ((lookupKey o.fields name).isSome → name ∈ readOnly →
      setattrFn readOnly writeable o name v = .readOnlyError o)
    ∧ ((lookupKey o.fields name).isSome → name ∉ readOnly →
       (writeable = [] ∨ name ∈ writeable) →
      setattrFn readOnly writeable o name v
        = .ok { o with updates := insertKey o.updates name v })
    ∧ (lookupKey o.fields name = Option.none →
      setattrFn readOnly writeable o name v
        = .ok { o with attrs := insertKey o.attrs name v }) := by
  refine ⟨?_, ?_, ?_⟩
  · intro hf hro
    rw [setattrFn, if_neg hn, if_pos hf, if_pos hro]
  · intro hf hro hw
    rw [setattrFn, if_neg hn, if_pos hf, if_neg hro, if_pos hw]
  · intro hf
    have hb : (lookupKey o.fields name).isSome = false := by rw [hf]; rfl
    rw [setattrFn, if_neg hn, if_neg (by rw [hb]; exact Bool.false_ne_true)]

/-- Witness for C9: with `read_only = ["id"]` and unrestricted
`writeable = []`, writing `id` raises, writing `name` buffers, and
writing an unrecognized name becomes an instance attribute. -/
theorem claim_C9_witness :
    setattrFn ["id"] [] ⟨[("id", .int 1), ("name", .str "a")], [], [], "u"⟩
        "id" (.int 2)
      = .readOnlyError ⟨[("id", .int 1), ("name", .str "a")], [], [], "u"⟩
    ∧ setattrFn ["id"] [] ⟨[("id", .int 1), ("name", .str "a")], [], [], "u"⟩
        "name" (.str "b")
      = .ok ⟨[("id", .int 1), ("name", .str "a")], [("name", .str "b")], [], "u"⟩
    ∧ setattrFn ["id"] [] ⟨[("id", .int 1), ("name", .str "a")], [], [], "u"⟩
        "other" (.str "c")
      = .ok ⟨[("id", .int 1), ("name", .str "a")], [], [("other", .str "c")], "u"⟩ :=
  ⟨(claim_C9 ["id"] [] ⟨[("id", .int 1), ("name", .str "a")], [], [], "u"⟩
      "id" (.int 2) (by decide)).1 rfl (by decide),
   (claim_C9 ["id"] [] ⟨[("id", .int 1), ("name", .str "a")], [], [], "u"⟩
      "name" (.str "b") (by decide)).2.1 rfl (by decide) (Or.inl rfl),
   (claim_C9 ["id"] [] ⟨[("id", .int 1), ("name", .str "a")], [], [], "u"⟩
      "other" (.str "c") (by decide)).2.2 rfl⟩

/-- C10: with a non-empty `writableFields` list, a write to a recognized
field that is neither read-only nor listed as writable is silently
dropped — no error, nothing buffered into `pendingUpdates`,
`committedFields` untouched, no instance attribute set: the result is the
unchanged object. -/
theorem claim_C10 (readOnly writeable : List String) (o : RObj) (name : String)
    (v : PyVal) (hn : name ≠ "_fields") (hw : writeable ≠ [])
    (hf : (lookupKey o.fields name).isSome) (hro : name ∉ readOnly)
    (hnw : name ∉ writeable) :
    setattrFn readOnly writeable o name v = .ok o := by
  rw [setattrFn, if_neg hn, if_pos hf, if_neg hro,
    if_neg (not_or.mpr ⟨hw, hnw⟩)]

/-- Witness for C10: with `writeable = ["name"]`, a write to the
recognized field `price` has no effect at all. -/
theorem claim_C10_witness :
    setattrFn ["id"] ["name"]
        ⟨[("id", .int 1), ("price", .int 5)], [], [], "u"⟩ "price" (.int 9)
      = .ok ⟨[("id", .int 1), ("price", .int 5)], [], [], "u"⟩ :=
  claim_C10 ["id"] ["name"] ⟨[("id", .int 1), ("price", .int 5)], [], [], "u"⟩
    "price" (.int 9) (by decide) (by decide) rfl (by decide) (by decide)

/-- C6: `update()` with empty `pendingUpdates` is a no-op — no network
call (`sent = none`), no state change.  With non-empty `pendingUpdates`
and a successful transport call, exactly the `pendingUpdates` mapping is
sent to the object's self URL, `committedFields` is wholesale replaced by
the server's response (a field absent from the response is gone, whatever
the object held before), `pendingUpdates` becomes empty, and a subsequent
read of an updated field returns the server-response value. -/
theorem claim_C6 {ε : Type}
    (conn : String → List (String × PyVal) → Except ε (List (String × PyVal)))
    (o : RObj) (results : List (String × PyVal))
    (subRes : List (String × Bool))
    (inflate : Bool → List (String × PyVal) → PyVal) :
    (o.updates = [] → updateOp conn o = .done o Option.none)
    ∧ (o.updates ≠ [] → conn o.url o.updates = .ok results →
        updateOp conn o
          = .done { o with fields := results, updates := [] }
              (some (o.url, o.updates))
        ∧ (∀ nm, lookupKey results nm = Option.none →
            lookupKey ({ o with fields := results, updates := [] } : RObj).fields nm
              = Option.none)
        ∧ (∀ nm v, lookupKey results nm = some v → (∀ d, v ≠ .dict d) →
            getattrFn subRes inflate { o with fields := results, updates := [] } nm
              = .ok (v, { o with fields := results, updates := [] }))) := by
  refine ⟨?_, ?_⟩
  · intro h
    simp only [updateOp, h]
  · intro hne hok
    cases hu : o.updates with
    | nil => exact absurd hu hne
    | cons a t =>
      rw [hu] at hok
      refine ⟨?_, ?_, ?_⟩
      · show updateOp conn o = _
        simp only [updateOp, hu, hok]
      · intro nm h
        exact h
      · intro nm v hv hnd
        exact getattr_committed_plain subRes inflate _ nm v rfl hv hnd

/-- Witness for C6: flushing pending `name := "X"` against a server that
answers `name := "Y"` sends exactly the pending mapping to the self URL,
replaces the fields with the response, clears the buffer, and a
subsequent read of `name` yields `"Y"`; an object with no pending updates
makes no call. -/
theorem claim_C6_witness :
    (updateOp (fun _ _ => (Except.ok [("name", PyVal.str "Y")] : Except Unit _))
        ⟨[("name", .str "a"), ("size", .int 3)], [("name", .str "X")], [], "u"⟩
      = .done ⟨[("name", .str "Y")], [], [], "u"⟩ (some ("u", [("name", .str "X")])))
    ∧ getattrFn [] (fun _ _ => PyVal.none) ⟨[("name", .str "Y")], [], [], "u"⟩ "name"
      = .ok (.str "Y", ⟨[("name", .str "Y")], [], [], "u"⟩)
    ∧ updateOp (fun _ _ => (Except.ok [] : Except Unit _)) ⟨[("n", .int 1)], [], [], "u"⟩
      = .done ⟨[("n", .int 1)], [], [], "u"⟩ Option.none :=
  ⟨((claim_C6 (fun _ _ => (Except.ok [("name", PyVal.str "Y")] : Except Unit _))
      ⟨[("name", .str "a"), ("size", .int 3)], [("name", .str "X")], [], "u"⟩
      [("name", PyVal.str "Y")] [] (fun _ _ => PyVal.none)).2
      (by simp) rfl).1,
   ((claim_C6 (fun _ _ => (Except.ok [("name", PyVal.str "Y")] : Except Unit _))
      ⟨[("name", .str "a"), ("size", .int 3)], [("name", .str "X")], [], "u"⟩
      [("name", PyVal.str "Y")] [] (fun _ _ => PyVal.none)).2
      (by simp) rfl).2.2 "name" (.str "Y") rfl (fun d h => PyVal.noConfusion h),
   (claim_C6 (fun _ _ => (Except.ok [] : Except Unit _))
      ⟨[("n", .int 1)], [], [], "u"⟩ [] [] (fun _ _ => PyVal.none)).1 rfl⟩

/-- C7: if the transport raises during `update()` with non-empty
`pendingUpdates`, the error propagates (`raised`) and the object's local
state is exactly the pre-call state — `pendingUpdates` still holds the
buffered values and `committedFields` is untouched — so a retry with a
working transport sends the very same payload to the same URL. -/
theorem claim_C7 {ε : Type}
    (conn conn2 : String → List (String × PyVal) → Except ε (List (String × PyVal)))
    (o : RObj) (e : ε) (results : List (String × PyVal))
    (hne : o.updates ≠ []) (herr : conn o.url o.updates = .error e) :
    updateOp conn o = .raised e o
    ∧ (conn2 o.url o.updates = .ok results →
        updateOp conn2 o
          = .done { o with fields := results, updates := [] }
              (some (o.url, o.updates))) := by
  cases hu : o.updates with
  | nil => exact absurd hu hne
  | cons a t =>
    rw [hu] at herr
    refine ⟨?_, ?_⟩
    · simp only [updateOp, hu, herr]
    · intro hok
      simp only [updateOp, hu, hok]

/-- Witness for C7: a failing transport leaves the pending `name := "X"`
buffered and the fields untouched; retrying with a working transport
sends the same payload. -/
theorem claim_C7_witness :
    updateOp (fun _ _ => (Except.error 5 : Except Nat (List (String × PyVal))))
        ⟨[("name", .str "a")], [("name", .str "X")], [], "u"⟩
      = .raised 5 ⟨[("name", .str "a")], [("name", .str "X")], [], "u"⟩
    ∧ updateOp (fun _ _ => (Except.ok [("name", PyVal.str "Y")]
          : Except Nat (List (String × PyVal))))
        ⟨[("name", .str "a")], [("name", .str "X")], [], "u"⟩
      = .done ⟨[("name", .str "Y")], [], [], "u"⟩ (some ("u", [("name", .str "X")])) :=
  ⟨(claim_C7 (fun _ _ => Except.error 5) (fun _ _ => Except.ok [("name", PyVal.str "Y")])
      ⟨[("name", .str "a")], [("name", .str "X")], [], "u"⟩ 5 [("name", PyVal.str "Y")]
      (by simp) rfl).1,
   (claim_C7 (fun _ _ => Except.error 5) (fun _ _ => Except.ok [("name", PyVal.str "Y")])
      ⟨[("name", .str "a")], [("name", .str "X")], [], "u"⟩ 5 [("name", PyVal.str "Y")]
      (by simp) rfl).2 rfl⟩

end BigC
